import Mathlib

/-!
Verification of the Strava MCP server (`strava_mcp_server.py`) against its
natural-language specification.

The Python source is shallowly embedded: float arithmetic is modelled exactly
over `ℚ` (the decimal constants of the source are exact rationals), Python
integers over `ℤ`/`ℕ`, Python `datetime` date arithmetic by proleptic-Gregorian
epoch-day arithmetic, `datetime` ↔ string conversions by the corresponding
digit renderings, raised exceptions by explicit error values, and the outcome
of each HTTP call by an input parameter of the embedded function.
-/

attribute [local semireducible] Rat.add Rat.mul Rat.inv Rat.sub Rat.ofScientific

/-! ## Decimal rendering (Python `str`/format of numbers) -/

/-- Little-endian decimal digits of `n`; `fuel` bounds the recursion (any
`fuel ≥ n` is exact, and `natDigits` always passes such a fuel). -/
def natDigitsGo : ℕ → ℕ → List ℕ
  | 0, _ => []
  | fuel + 1, n => if n = 0 then [] else n % 10 :: natDigitsGo fuel (n / 10)

/-- Big-endian decimal digits of `n` (empty for `0`). -/
def natDigits (n : ℕ) : List ℕ := (natDigitsGo (n + 1) n).reverse

/-- The character of a decimal digit. -/
def digitChar (d : ℕ) : Char := Char.ofNat (48 + d)

/-- Decimal rendering of a natural number, as Python's `str`. -/
def natToStr (n : ℕ) : String :=
  if n = 0 then "0" else String.mk ((natDigits n).map digitChar)

/-- Decimal rendering of an integer, as Python's `str`. -/
def intToStr (i : ℤ) : String :=
  if i < 0 then "-" ++ natToStr (-i).toNat else natToStr i.toNat

/-- Left-pad with `'0'` to width `w` (Python zero-padded formats such as `:02d`). -/
def padZero (w : ℕ) (s : String) : String :=
  String.mk (List.replicate (w - s.data.length) '0') ++ s

/-- Round to the nearest integer, ties to even (the rounding of Python's
fixed-point float formatting, idealized to exact arithmetic). -/
def roundHalfEvenInt (q : ℚ) : ℤ :=
  let f : ℤ := ⌊q⌋
  if q - f < 1 / 2 then f
  else if 1 / 2 < q - f then f + 1
  else if f % 2 = 0 then f else f + 1

/-- Python fixed-point formatting `f"{q:.df}"`, idealized to exact arithmetic. -/
def formatFixed (d : ℕ) (q : ℚ) : String :=
  let n : ℤ := roundHalfEvenInt (q * ((10 : ℚ) ^ d))
  let m : ℕ := n.natAbs
  (if n < 0 then "-" else "")
    ++ natToStr (m / 10 ^ d) ++ "." ++ padZero d (natToStr (m % 10 ^ d))

/-- Python float modulo `a % b`, i.e. `a - b * (a // b)`. -/
def pyFloorMod (a b : ℚ) : ℚ := a - b * (⌊a / b⌋ : ℤ)

/-- Python `f"{int(x // 60)}:{int(x % 60):02d}"`, the source's minutes:seconds
rendering of a quantity of seconds. -/
def minSecStr (x : ℚ) : String :=
  intToStr ⌊x / 60⌋ ++ ":" ++ padZero 2 (intToStr ⌊pyFloorMod x 60⌋)

/-! ## Python string comparison (code-point lexicographic) -/

/-- Lexicographic strict comparison of character lists by code point. -/
def lexLtB : List Char → List Char → Bool
  | _, [] => false
  | [], _ :: _ => true
  | c :: cs, d :: ds =>
    if c.toNat < d.toNat then true
    else if d.toNat < c.toNat then false
    else lexLtB cs ds

/-- Python string `<` (code-point lexicographic order). -/
def strLt (a b : String) : Bool := lexLtB a.data b.data

/-! ## Dates (Python `datetime` restricted to what the source uses) -/

/-- A civil (proleptic Gregorian) calendar date. -/
structure Date where
  year : ℤ
  month : ℤ
  day : ℤ
deriving DecidableEq

/-- Read a run of decimal digit characters as a number. -/
def readDigits (cs : List Char) : ℤ :=
  cs.foldl (fun acc c => 10 * acc + ((c.toNat : ℤ) - 48)) 0

/-- The date component of `datetime.fromisoformat` on a well-formed ISO-8601
`YYYY-MM-DD...` string (the source only consumes the date component of the
parsed value: `strftime` date fields and `weekday`). -/
def parseDate (s : String) : Date :=
  ⟨readDigits (s.data.take 4), readDigits ((s.data.drop 5).take 2),
    readDigits ((s.data.drop 8).take 2)⟩

/-- Days since 1970-01-01 of a civil date (Hinnant's algorithm with floor
division; the day-count arithmetic underlying Python `datetime` subtraction). -/
def daysFromCivil (dt : Date) : ℤ :=
  let y : ℤ := if dt.month ≤ 2 then dt.year - 1 else dt.year
  let era : ℤ := Int.fdiv y 400
  let yoe : ℤ := y - era * 400
  let mp : ℤ := Int.emod (dt.month + 9) 12
  let doy : ℤ := Int.fdiv (153 * mp + 2) 5 + dt.day - 1
  let doe : ℤ := yoe * 365 + Int.fdiv yoe 4 - Int.fdiv yoe 100 + doy
  era * 146097 + doe - 719468

/-- Civil date of a count of days since 1970-01-01 (inverse direction of
Hinnant's algorithm). -/
def civilFromDays (days : ℤ) : Date :=
  let z : ℤ := days + 719468
  let era : ℤ := Int.fdiv z 146097
  let doe : ℤ := z - era * 146097
  let yoe : ℤ :=
    Int.fdiv (doe - Int.fdiv doe 1460 + Int.fdiv doe 36524 - Int.fdiv doe 146096) 365
  let y : ℤ := yoe + era * 400
  let doy : ℤ := doe - (365 * yoe + Int.fdiv yoe 4 - Int.fdiv yoe 100)
  let mp : ℤ := Int.fdiv (5 * doy + 2) 153
  let d : ℤ := doy - Int.fdiv (153 * mp + 2) 5 + 1
  let m : ℤ := mp + (if mp < 10 then 3 else -9)
  ⟨y + (if m ≤ 2 then 1 else 0), m, d⟩

/-- Python `date.weekday()`: Monday = 0 … Sunday = 6 (1970-01-01 fell on a
Thursday, weekday 3). -/
def pyWeekday (dt : Date) : ℤ := Int.emod (daysFromCivil dt + 3) 7

/-- Python `strftime("%Y-%m-%d")`. -/
def formatYMD (dt : Date) : String :=
  padZero 4 (intToStr dt.year) ++ "-" ++ padZero 2 (intToStr dt.month)
    ++ "-" ++ padZero 2 (intToStr dt.day)

/-- Python `strftime("%m/%d")`. -/
def formatMD (dt : Date) : String :=
  padZero 2 (intToStr dt.month) ++ "/" ++ padZero 2 (intToStr dt.day)

/-! ## Activity records -/

/-- The fields of a raw Strava activity record that the source consumes. -/
structure Activity where
  type : String
  distance : ℚ
  average_speed : ℚ
  elapsed_time : ℤ
  start_date_local : String
  name : String
deriving DecidableEq

/-! ## Unit and format helpers from the source -/

/-- `meters_to_miles` from the source. -/
def meters_to_miles (meters : ℚ) : ℚ := meters * 0.000621371

/-- `meters_per_second_to_pace` from the source: `"N/A"` at speed exactly `0`,
otherwise `minutes:seconds` per mile with seconds zero-padded to two digits. -/
def meters_per_second_to_pace (mps : ℚ) : String :=
  if mps = 0 then "N/A"
  else
    let miles_per_second := mps * 0.000621371
    let seconds_per_mile := 1 / miles_per_second
    minSecStr seconds_per_mile

/-! ## Token Manager (`StravaAPI`) -/

/-- The credential state of a `StravaAPI` object (`access_token`,
`refresh_token`, `token_expires_at`); times are Unix seconds. -/
structure CredState where
  access_token : Option String
  refresh_token : String
  token_expires_at : Option ℤ
deriving DecidableEq

/-- The outcome of the POST to the token endpoint: a non-success status (the
message of the exception `raise_for_status` raises), or a success payload
`access_token`, `refresh_token`, `expires_in`. -/
inductive TokenEndpointResult where
  | failure : String → TokenEndpointResult
  | success : String → String → ℤ → TokenEndpointResult
deriving DecidableEq

/-- `StravaAPI.refresh_access_token`: the state after the call paired with the
message of the raised exception, if any. `response.raise_for_status()` runs
before any assignment, so on a non-success response the state is untouched;
on success all three credential fields are replaced and the expiry becomes
`now + expires_in`. -/
def refresh_access_token (s : CredState) (now : ℤ) (resp : TokenEndpointResult) :
    CredState × Option String :=
  match resp with
  | .failure msg => (s, some msg)
  | .success tok newRefresh expires_in =>
    (⟨some tok, newRefresh, some (now + expires_in)⟩, none)

/-- Python truthiness of an `Optional[str]`: `None` and `""` are falsy. -/
def optStrTruthy : Option String → Bool
  | none => false
  | some t => !(t == "")

/-- The refresh condition of `StravaAPI.ensure_valid_token`:
`not self.access_token or (self.token_expires_at and
 datetime.now() >= self.token_expires_at - timedelta(minutes=5))`. -/
def needsRefresh (s : CredState) (now : ℤ) : Bool :=
  !optStrTruthy s.access_token ||
    (match s.token_expires_at with
     | none => false
     | some e => decide (e - 5 * 60 ≤ now))

/-- `StravaAPI.ensure_valid_token`: refresh when the condition holds, else leave
the state untouched. -/
def ensure_valid_token (s : CredState) (now : ℤ) (resp : TokenEndpointResult) :
    CredState × Option String :=
  if needsRefresh s now then refresh_access_token s now resp else (s, none)

/-- The held access credential exists and its stored expiry lies more than
`dur` seconds in the future (spec-side notion of "non-expired for at least the
next `dur` seconds"). -/
def tokenValidFor (s : CredState) (now dur : ℤ) : Prop :=
  s.access_token ≠ none ∧ ∃ e, s.token_expires_at = some e ∧ now + dur < e

/-! ## Activity Fetcher query parameters -/

/-- Python truthiness of an `Optional[int]`: `None` and `0` are falsy. -/
def intOptTruthy : Option ℤ → Bool
  | none => false
  | some n => !(n == 0)

/-- The query-parameter list built by `StravaAPI.get_activities`:
`{"per_page": per_page}` plus `before`/`after` added only when truthy. -/
def getActivitiesParams (before after : Option ℤ) (per_page : ℤ) :
    List (String × ℤ) :=
  [("per_page", per_page)]
    ++ (if intOptTruthy before then [("before", before.getD 0)] else [])
    ++ (if intOptTruthy after then [("after", after.getD 0)] else [])

/-! ## Statistics: recent runs -/

/-- The filter `activity["type"] == "Run"` applied to the fetched list. -/
def runFilter (activities : List Activity) : List Activity :=
  activities.filter (fun a => a.type == "Run")

/-- One bullet entry of the recent-runs report. -/
def recentRunLine (run : Activity) : String :=
  "• " ++ formatYMD (parseDate run.start_date_local) ++ ": " ++ run.name ++ "\n"
    ++ "  Distance: " ++ formatFixed 2 (meters_to_miles run.distance) ++ " miles\n"
    ++ "  Avg Pace: "
    ++ (if run.average_speed ≠ 0 then meters_per_second_to_pace run.average_speed else "N/A")
    ++ "/mile\n"
    ++ "  Duration: " ++ intToStr (Int.fdiv run.elapsed_time 60) ++ ":"
    ++ padZero 2 (intToStr (Int.emod run.elapsed_time 60)) ++ "\n\n"

/-- The `get_recent_runs` branch of `handle_call_tool`, applied to the fetched
activity list. -/
def get_recent_runs (activities : List Activity) (days : ℤ) : String :=
  let runs := runFilter activities
  if runs.isEmpty then "No running activities found in the specified period."
  else
    runs.foldl (fun acc run => acc ++ recentRunLine run)
      ("Found " ++ natToStr runs.length ++ " running activities in the last "
        ++ intToStr days ++ " days:\n\n")

/-! ## Statistics: weekly mileage -/

/-- The Monday-aligned week key of a run:
`(date - timedelta(days=date.weekday())).strftime("%Y-%m-%d")`. -/
def weekKey (run : Activity) : String :=
  let dt := parseDate run.start_date_local
  formatYMD (civilFromDays (daysFromCivil dt - pyWeekday dt))

/-- `weekly_mileage[week_key] += v` on the insertion-ordered dict (creating the
key with value `0` first when absent, as the source does). -/
def addMiles : List (String × ℚ) → String → ℚ → List (String × ℚ)
  | [], k, v => [(k, v)]
  | (k₀, v₀) :: rest, k, v =>
    if k₀ = k then (k₀, v₀ + v) :: rest else (k₀, v₀) :: addMiles rest k v

/-- One iteration of the grouping loop. -/
def weeklyStep (m : List (String × ℚ)) (run : Activity) : List (String × ℚ) :=
  addMiles m (weekKey run) (meters_to_miles run.distance)

/-- The `weekly_mileage` dict after the grouping loop, as an insertion-ordered
association list. -/
def weeklyGroups (runs : List Activity) : List (String × ℚ) :=
  runs.foldl weeklyStep []

/-- Dict lookup `weekly_mileage[k]` (`0` when absent; the source only looks up
present keys). -/
def lookupMiles : List (String × ℚ) → String → ℚ
  | [], _ => 0
  | (k₀, v₀) :: rest, k => if k₀ = k then v₀ else lookupMiles rest k

/-- `sorted(weekly_mileage.keys(), reverse=True)`: descending code-point order. -/
def sortedKeysDesc (m : List (String × ℚ)) : List String :=
  List.insertionSort (fun a b => strLt a b = false) (m.map Prod.fst)

/-- One `Week of …` line of the weekly-mileage report. -/
def weekLine (m : List (String × ℚ)) (k : String) : String :=
  "Week of " ++ k ++ ": " ++ formatFixed 1 (lookupMiles m k) ++ " miles\n"

/-- The `get_weekly_mileage` branch of `handle_call_tool`, applied to the
fetched activity list. -/
def get_weekly_mileage (activities : List Activity) (weeks : ℤ) : String :=
  let runs := runFilter activities
  let wm := weeklyGroups runs
  if wm.isEmpty then "No running activities found for weekly mileage calculation."
  else
    let total := (wm.map Prod.snd).sum
    "Weekly mileage for the last " ++ intToStr weeks ++ " weeks:\n\n"
      ++ String.join ((sortedKeysDesc wm).map (weekLine wm))
      ++ "\nTotal: " ++ formatFixed 1 total ++ " miles\n"
      ++ "Average per week: " ++ formatFixed 1 (total / (wm.length : ℚ)) ++ " miles"

/-! ## Statistics: pace trends -/

/-- The filter `activity["type"] == "Run" and activity["average_speed"]`. -/
def paceRunFilter (activities : List Activity) : List Activity :=
  activities.filter (fun a => a.type == "Run" && !(a.average_speed == 0))

/-- `runs.sort(key=lambda x: x["start_date_local"])`: stable ascending sort by
the raw timestamp string. -/
def paceSorted (activities : List Activity) : List Activity :=
  List.insertionSort (fun a b => strLt b.start_date_local a.start_date_local = false)
    (paceRunFilter activities)

/-- `pace_seconds` of one run: `1 / (run["average_speed"] * 0.000621371)`. -/
def paceSeconds (run : Activity) : ℚ := 1 / (run.average_speed * 0.000621371)

/-- The `paces` list accumulated by the loop (one sample per sorted run). -/
def paceList (activities : List Activity) : List ℚ :=
  (paceSorted activities).map paceSeconds

/-- One per-run line of the pace report. -/
def paceLine (run : Activity) : String :=
  formatMD (parseDate run.start_date_local) ++ ": "
    ++ meters_per_second_to_pace run.average_speed
    ++ "/mile (" ++ formatFixed 1 (meters_to_miles run.distance) ++ "mi)\n"

/-- Header plus the per-run lines of the pace report. -/
def paceBody (activities : List Activity) (days : ℤ) : String :=
  "Pace analysis for the last " ++ intToStr days ++ " days:\n\n"
    ++ String.join ((paceSorted activities).map paceLine)

/-- The `analyze_pace_trends` branch of `handle_call_tool`, applied to the
fetched activity list. The trend is computed as in the source: first
`"improving" if recent_avg < early_avg else "declining"`, then overridden to
`"stable"` when `abs(recent_avg - early_avg) < 10`. -/
def analyze_pace_trends (activities : List Activity) (days : ℤ) : String :=
  if (paceRunFilter activities).isEmpty then
    "No running activities with pace data found."
  else
    let paces := paceList activities
    if 2 ≤ paces.length then
      let avg := paces.sum / (paces.length : ℚ)
      let recent_avg := (paces.drop (paces.length - 3)).sum / ((min 3 paces.length : ℕ) : ℚ)
      let early_avg := (paces.take 3).sum / ((min 3 paces.length : ℕ) : ℚ)
      let trend₀ := if recent_avg < early_avg then "improving" else "declining"
      let trend := if |recent_avg - early_avg| < 10 then "stable" else trend₀
      paceBody activities days
        ++ "\nAverage pace: " ++ minSecStr avg ++ "/mile\n" ++ "Trend: " ++ trend
    else paceBody activities days

/-! ## Tool dispatcher (`handle_call_tool`) -/

/-- The optional integer arguments of a tool invocation. -/
structure ToolArgs where
  days : Option ℤ
  weeks : Option ℤ
deriving DecidableEq

/-- The `try:` body of `handle_call_tool`. The outcome of the activity fetch is
an input; a fetch failure propagates as the thrown error of the body. -/
def handleCallToolBody (name : String) (args : ToolArgs)
    (fetch : Except String (List Activity)) : Except String String :=
  if name == "get_recent_runs" then
    match fetch with
    | .error e => .error e
    | .ok acts => .ok (get_recent_runs acts (args.days.getD 30))
  else if name == "get_weekly_mileage" then
    match fetch with
    | .error e => .error e
    | .ok acts => .ok (get_weekly_mileage acts (args.weeks.getD 4))
  else if name == "analyze_pace_trends" then
    match fetch with
    | .error e => .error e
    | .ok acts => .ok (analyze_pace_trends acts (args.days.getD 30))
  else .ok ("Unknown tool: " ++ name)

/-- `handle_call_tool` with its `except Exception` boundary: any failure of the
body is rendered as the text result `Error: <message>`. -/
def handle_call_tool (name : String) (args : ToolArgs)
    (fetch : Except String (List Activity)) : String :=
  match handleCallToolBody name args fetch with
  | .ok text => text
  | .error e => "Error: " ++ e

/-! ## Spec-side definitions (formalizing the specification's wording, for
comparison with the source-side definitions above) -/

/-- Spec formula for the pace of a positive speed: `1 / (s * 0.000621371)`. -/
def secondsPerMile (s : ℚ) : ℚ := 1 / (s * 0.000621371)

/-- Trend classification exactly as the spec words it. -/
def trendSpec (recent early : ℚ) : String :=
  if |recent - early| < 10 then "stable"
  else if recent < early then "improving"
  else "declining"

/-- Spec: the mean of the last `min 3 n` pace samples. -/
def recentAvgSpec (paces : List ℚ) : ℚ :=
  let lastN := paces.drop (paces.length - min 3 paces.length)
  lastN.sum / (lastN.length : ℚ)

/-- Spec: the mean of the first `min 3 n` pace samples. -/
def earlyAvgSpec (paces : List ℚ) : ℚ :=
  let firstN := paces.take (min 3 paces.length)
  firstN.sum / (firstN.length : ℚ)

/-- Spec-side: the epoch day of the Monday of the week containing a run's
local start date. -/
def mondayEpochOf (run : Activity) : ℤ :=
  let dt := parseDate run.start_date_local
  daysFromCivil dt - pyWeekday dt

/-- Weekday (Monday = 0) of an epoch-day number. -/
def epochWeekday (z : ℤ) : ℤ := Int.emod (z + 3) 7

/-- Spec-side: the number of distinct week keys actually present in the data. -/
def distinctWeekKeys (runs : List Activity) : ℕ :=
  ((runs.map weekKey).dedup).length

/-- Whether a character is a decimal digit. -/
def isDigitB (c : Char) : Bool := decide (48 ≤ c.toNat) && decide (c.toNat ≤ 57)

/-- Exactly two digit characters. -/
def patTwoDigits : List Char → Bool
  | [d₁, d₂] => isDigitB d₁ && isDigitB d₂
  | _ => false

/-- After the leading digit of `\d+:\d{2}`: more digits, then `:` followed by
exactly two digits ending the string. -/
def patTail : List Char → Bool
  | [] => false
  | c :: rest => if c = ':' then patTwoDigits rest else isDigitB c && patTail rest

/-- Full match of the regex `\d+:\d{2}`. -/
def matchesPacePattern (s : String) : Bool :=
  match s.data with
  | [] => false
  | c :: rest => isDigitB c && patTail rest

/-! ## Sample data for concrete witnesses -/

/-- A sample run of one mile at 3.5 m/s on Monday 2024-01-01. -/
def sampleRunA : Activity :=
  ⟨"Run", 1609.34, 3.5, 460, "2024-01-01T08:00:00Z", "Morning Run"⟩

/-- A sample run of two miles at 3.5 m/s on Wednesday 2024-01-03. -/
def sampleRunB : Activity :=
  ⟨"Run", 3218.68, 3.5, 900, "2024-01-03T08:00:00Z", "Second Run"⟩

/-- A sample run on Tuesday 2024-01-09, in the following week. -/
def sampleRunC : Activity :=
  ⟨"Run", 1609.34, 3, 500, "2024-01-09T08:00:00Z", "Next Week Run"⟩

/-! ## Lemmas: decimal rendering -/

theorem natDigitsGo_lt_ten : ∀ fuel n d, d ∈ natDigitsGo fuel n → d < 10 := by
  intro fuel
  induction fuel with
  | zero => intro n d hd; simp [natDigitsGo] at hd
  | succ f ih =>
    intro n d hd
    rw [natDigitsGo] at hd
    split at hd
    · simp at hd
    · rcases List.mem_cons.1 hd with h | h
      · exact h ▸ Nat.mod_lt _ (by norm_num)
      · exact ih _ _ h

theorem isDigitB_digitChar : ∀ d, d < 10 → isDigitB (digitChar d) = true := by decide

theorem natToStr_all_digits (n : ℕ) : ∀ c ∈ (natToStr n).data, isDigitB c = true := by
  intro c hc
  by_cases h : n = 0
  · subst h
    have : c = '0' := by simpa [natToStr] using hc
    subst this; decide
  · simp only [natToStr, if_neg h] at hc
    rcases List.mem_map.1 hc with ⟨d, hd, rfl⟩
    exact isDigitB_digitChar d (natDigitsGo_lt_ten _ _ d (List.mem_reverse.1 hd))

theorem natToStr_ne_nil (n : ℕ) : (natToStr n).data ≠ [] := by
  by_cases h : n = 0
  · subst h; simp [natToStr]
  · simp only [natToStr, if_neg h]
    intro hcon
    have : natDigitsGo (n + 1) n ≠ [] := by
      rw [natDigitsGo]; simp [h]
    simp only [natDigits] at hcon
    rw [List.map_eq_nil_iff, List.reverse_eq_nil_iff] at hcon
    exact this hcon

theorem natToStr_length_le_two : ∀ n < 100, (natToStr n).data.length ≤ 2 := by decide

theorem intToStr_of_nonneg (i : ℤ) (h : 0 ≤ i) : intToStr i = natToStr i.toNat := by
  simp [intToStr, not_lt.2 h]

/-! ## Lemmas: the pace pattern -/

theorem patTail_append (ds : List Char) (hds : ∀ c ∈ ds, isDigitB c = true)
    (d₁ d₂ : Char) (h1 : isDigitB d₁ = true) (h2 : isDigitB d₂ = true) :
    patTail (ds ++ ':' :: [d₁, d₂]) = true := by
  induction ds with
  | nil => simp [patTail, patTwoDigits, h1, h2]
  | cons c cs ih =>
    have hc := hds c (List.mem_cons_self c cs)
    have hcne : ¬(c = ':') := by
      intro hcon; subst hcon; simp [isDigitB] at hc
    rw [List.cons_append, patTail]
    simp only [if_neg hcne]
    rw [hc, ih (fun x hx => hds x (List.mem_cons_of_mem c hx))]
    rfl

/-! ## Lemmas: floor-mod bounds -/

theorem pyFloorMod_nonneg (x : ℚ) : 0 ≤ pyFloorMod x 60 := by
  have h := Int.floor_le (x / 60)
  have h60 : (0:ℚ) < 60 := by norm_num
  rw [pyFloorMod]
  nlinarith [h]

theorem pyFloorMod_lt (x : ℚ) : pyFloorMod x 60 < 60 := by
  have h := Int.lt_floor_add_one (x / 60)
  have h60 : (0:ℚ) < 60 := by norm_num
  rw [pyFloorMod]
  nlinarith [h]

theorem floor_pyFloorMod_bounds (x : ℚ) :
    0 ≤ ⌊pyFloorMod x 60⌋ ∧ ⌊pyFloorMod x 60⌋ < 60 :=
  ⟨Int.floor_nonneg.2 (pyFloorMod_nonneg x),
   Int.floor_lt.2 (by exact_mod_cast pyFloorMod_lt x)⟩

theorem minSecStr_matches (x : ℚ) (hx : 0 ≤ x) : matchesPacePattern (minSecStr x) = true := by
  have hmin : 0 ≤ ⌊x / 60⌋ := Int.floor_nonneg.2 (by positivity)
  obtain ⟨hs0, hs60⟩ := floor_pyFloorMod_bounds x
  set m : ℤ := ⌊x / 60⌋ with hm
  set sec : ℤ := ⌊pyFloorMod x 60⌋ with hsec
  have hmstr : intToStr m = natToStr m.toNat := intToStr_of_nonneg m hmin
  have hsstr : intToStr sec = natToStr sec.toNat := intToStr_of_nonneg sec hs0
  have hsec100 : sec.toNat < 100 := by omega
  have hslen : (natToStr sec.toNat).data.length ≤ 2 := natToStr_length_le_two _ hsec100
  -- the seconds field: exactly two digit characters after zero-padding
  have hpad : (padZero 2 (intToStr sec)).data =
      List.replicate (2 - (natToStr sec.toNat).data.length) '0' ++ (natToStr sec.toNat).data := by
    rw [hsstr]; simp [padZero]
  have hpadlen : (padZero 2 (intToStr sec)).data.length = 2 := by
    rw [hpad, List.length_append, List.length_replicate]; omega
  have hpaddig : ∀ c ∈ (padZero 2 (intToStr sec)).data, isDigitB c = true := by
    intro c hc
    rw [hpad] at hc
    rcases List.mem_append.1 hc with h | h
    · rw [List.eq_of_mem_replicate h]; decide
    · exact natToStr_all_digits _ c h
  obtain ⟨d₁, d₂, hd⟩ : ∃ d₁ d₂, (padZero 2 (intToStr sec)).data = [d₁, d₂] := by
    rcases hl : (padZero 2 (intToStr sec)).data with _ | ⟨a, _ | ⟨b, _ | _⟩⟩ <;>
      simp [hl] at hpadlen
    · exact ⟨a, b, rfl⟩
  have hmins := natToStr_all_digits m.toNat
  rcases hml : (natToStr m.toNat).data with _ | ⟨c₀, cs⟩
  · exact absurd hml (natToStr_ne_nil _)
  · have hdata : (minSecStr x).data = c₀ :: (cs ++ ':' :: [d₁, d₂]) := by
      rw [minSecStr, ← hm, ← hsec, hmstr]
      simp only [String.data_append, hml, hd]
      simp
    have hc₀ : isDigitB c₀ = true := hmins c₀ (hml ▸ List.mem_cons_self _ _)
    have hpat : patTail (cs ++ ':' :: [d₁, d₂]) = true :=
      patTail_append cs (fun c hc => hmins c (hml ▸ List.mem_cons_of_mem _ hc)) d₁ d₂
        (hpaddig d₁ (hd ▸ by simp)) (hpaddig d₂ (hd ▸ by simp))
    rw [matchesPacePattern, hdata]
    show (isDigitB c₀ && patTail (cs ++ ':' :: [d₁, d₂])) = true
    rw [hc₀, hpat]
    rfl

/-! ## Claim C4: the pace-format helper -/

/-- C4: `meters_per_second_to_pace 0` is exactly `"N/A"`, and for every
strictly positive speed `s` the result is `floor(secondsPerMile / 60)` and
`floor(secondsPerMile mod 60)` — with `secondsPerMile = 1 / (s * 0.000621371)`
— rendered as `minutes:seconds` with the seconds zero-padded to two digits,
and it matches the pattern `\d+:\d{2}`. -/
theorem pace_format_spec :
    meters_per_second_to_pace 0 = "N/A" ∧
    ∀ s : ℚ, 0 < s →
      meters_per_second_to_pace s =
        intToStr ⌊secondsPerMile s / 60⌋ ++ ":"
          ++ padZero 2 (intToStr ⌊pyFloorMod (secondsPerMile s) 60⌋) ∧
      matchesPacePattern (meters_per_second_to_pace s) = true := by
  refine ⟨rfl, fun s hs => ?_⟩
  have hne : ¬(s = 0) := ne_of_gt hs
  have heq : meters_per_second_to_pace s = minSecStr (secondsPerMile s) := by
    rw [meters_per_second_to_pace, if_neg hne]; rfl
  have hpos : 0 ≤ secondsPerMile s := by
    rw [secondsPerMile]; positivity
  exact ⟨heq, heq ▸ minSecStr_matches _ hpos⟩

/-- Witness for C4 at the concrete speed `3.5 m/s` (pace 7:39 per mile). -/
theorem pace_format_spec_witness :
    meters_per_second_to_pace 3.5 =
      intToStr ⌊secondsPerMile 3.5 / 60⌋ ++ ":"
        ++ padZero 2 (intToStr ⌊pyFloorMod (secondsPerMile 3.5) 60⌋) ∧
    matchesPacePattern (meters_per_second_to_pace 3.5) = true :=
  pace_format_spec.2 3.5 (by decide)

/-! ## Claim C9: failed refresh leaves the credential state untouched -/

/-- C9: on a non-success token-endpoint response, `refresh_access_token` raises
before any assignment: `access_token`, `refresh_token` and `token_expires_at`
are all unchanged, and the error carrying the response's message is raised. -/
theorem refresh_failure_leaves_state (s : CredState) (now : ℤ) (msg : String) :
    (refresh_access_token s now (.failure msg)).1.access_token = s.access_token ∧
    (refresh_access_token s now (.failure msg)).1.refresh_token = s.refresh_token ∧
    (refresh_access_token s now (.failure msg)).1.token_expires_at = s.token_expires_at ∧
    (refresh_access_token s now (.failure msg)).2 = some msg :=
  ⟨rfl, rfl, rfl, rfl⟩

/-! ## Claim C10: zero timestamps behave like omitted filters -/

/-- C10: `before`/`after` are included in the query parameters only when
truthy, so passing `0` for either is identical to omitting it. -/
theorem get_activities_zero_timestamp :
    (∀ a pp, getActivitiesParams (some 0) a pp = getActivitiesParams none a pp) ∧
    (∀ b pp, getActivitiesParams b (some 0) pp = getActivitiesParams b none pp) ∧
    (∀ b a pp v, ("before", v) ∈ getActivitiesParams b a pp → intOptTruthy b = true) ∧
    (∀ b a pp v, ("after", v) ∈ getActivitiesParams b a pp → intOptTruthy a = true) := by
  refine ⟨fun a pp => rfl, fun b pp => rfl, ?_, ?_⟩
  · intro b a pp v hv
    rcases hb : intOptTruthy b with _ | _
    · exfalso
      simp only [getActivitiesParams, hb, if_false] at hv
      rcases List.mem_append.1 hv with h | h
      · simp at h
      · split at h <;> simp at h
    · rfl
  · intro b a pp v hv
    rcases ha : intOptTruthy a with _ | _
    · exfalso
      simp only [getActivitiesParams, ha, if_false] at hv
      rcases List.mem_append.1 hv with h | h
      · rcases List.mem_append.1 h with h' | h'
        · simp at h'
        · split at h' <;> simp at h'
      · simp at h
    · rfl

/-- Witness for C10: a nonzero `before` value that does appear is truthy. -/
theorem get_activities_zero_timestamp_witness : intOptTruthy (some 5) = true :=
  get_activities_zero_timestamp.2.2.1 (some 5) none 30 5 (by decide)

/-! ## Claim C7: recent runs with no qualifying activity -/

/-- C7: when no fetched activity has type `"Run"`, `get_recent_runs` returns
exactly the fixed message. -/
theorem recent_runs_no_match_message (activities : List Activity) (days : ℤ)
    (h : ∀ a ∈ activities, a.type ≠ "Run") :
    get_recent_runs activities days =
      "No running activities found in the specified period." := by
  have hfil : runFilter activities = [] := by
    rw [runFilter, List.filter_eq_nil_iff]
    intro a ha
    simpa using h a ha
  rw [get_recent_runs, hfil]
  rfl

/-- Witness for C7: a list holding only a `Ride`. -/
theorem recent_runs_no_match_message_witness :
    get_recent_runs [⟨"Ride", 1000, 3, 600, "2024-01-01T08:00:00Z", "Spin"⟩] 30 =
      "No running activities found in the specified period." :=
  recent_runs_no_match_message _ 30 (by decide)

/-! ## Claim C8: the dispatch boundary -/

/-- C8: for the three known tools a failure below the boundary is rendered as
the single text result `Error: <message>`, and an unknown tool name yields a
text result naming the unknown tool rather than a crash. -/
theorem dispatch_error_boundary (name : String) (args : ToolArgs) :
    ((name = "get_recent_runs" ∨ name = "get_weekly_mileage" ∨ name = "analyze_pace_trends") →
      ∀ e, handle_call_tool name args (.error e) = "Error: " ++ e) ∧
    (name ≠ "get_recent_runs" → name ≠ "get_weekly_mileage" → name ≠ "analyze_pace_trends" →
      ∀ fetch, handle_call_tool name args fetch = "Unknown tool: " ++ name) := by
  constructor
  · rintro (h | h | h) e <;> subst h <;> rfl
  · intro h1 h2 h3 fetch
    simp only [handle_call_tool, handleCallToolBody, beq_iff_eq, if_neg h1, if_neg h2, if_neg h3]

/-- Witness for C8: a failing fetch under a known tool, and an unknown tool. -/
theorem dispatch_error_boundary_witness :
    handle_call_tool "get_recent_runs" ⟨none, none⟩ (.error "boom") = "Error: boom" ∧
    handle_call_tool "bogus" ⟨none, none⟩ (.ok []) = "Unknown tool: bogus" :=
  ⟨(dispatch_error_boundary "get_recent_runs" ⟨none, none⟩).1 (Or.inl rfl) "boom",
   (dispatch_error_boundary "bogus" ⟨none, none⟩).2 (by decide) (by decide) (by decide) (.ok [])⟩

/-! ## Claim C1: the ensure-valid contract (amended) -/

/-- C1 (amended): for credential states where a present access token implies a
stored expiry (the invariant maintained by initialization and refresh), and
assuming any successful token response has `expires_in` greater than 300
seconds, `ensure_valid_token` refreshes exactly when no (truthy) access
credential exists or the current time is at or past the stored expiry minus
5 minutes — leaving the state untouched otherwise — and whenever it returns
without error the held credential is non-expired for more than the next
5 minutes. -/
theorem ensure_valid_token_contract (s : CredState) (now : ℤ) (resp : TokenEndpointResult)
    (hwf : s.access_token ≠ none → s.token_expires_at ≠ none)
    (hlife : ∀ a r e, resp = .success a r e → 5 * 60 < e) :
    (needsRefresh s now = true ↔
      (optStrTruthy s.access_token = false ∨
        ∃ e, s.token_expires_at = some e ∧ e - 5 * 60 ≤ now)) ∧
    (needsRefresh s now = true →
      ensure_valid_token s now resp = refresh_access_token s now resp) ∧
    (needsRefresh s now = false → ensure_valid_token s now resp = (s, none)) ∧
    (∀ s', ensure_valid_token s now resp = (s', none) → tokenValidFor s' now (5 * 60)) := by
  refine ⟨?_, fun h => by rw [ensure_valid_token, if_pos h], fun h => by rw [ensure_valid_token, if_neg (by simp [h])], ?_⟩
  · rw [needsRefresh]
    rcases s.token_expires_at with _ | e
    · simp
    · simp [Bool.or_eq_true, Bool.not_eq_true']
  · intro s' hs'
    by_cases hnr : needsRefresh s now = true
    · rw [ensure_valid_token, if_pos hnr] at hs'
      rcases hresp : resp with msg | ⟨a, r, e⟩
      · rw [hresp, refresh_access_token] at hs'
        exact absurd (congrArg Prod.snd hs') (by simp)
      · rw [hresp, refresh_access_token] at hs'
        have he : 5 * 60 < e := hlife a r e hresp
        have : s' = ⟨some a, r, some (now + e)⟩ := (congrArg Prod.fst hs').symm
        subst this
        exact ⟨by simp, now + e, rfl, by omega⟩
    · rw [ensure_valid_token, if_neg hnr] at hs'
      have hs : s' = s := (congrArg Prod.fst hs').symm
      subst hs
      rw [needsRefresh] at hnr
      simp only [Bool.or_eq_true, Bool.not_eq_true', not_or] at hnr
      obtain ⟨htr, hexp⟩ := hnr
      have hacc : s'.access_token ≠ none := by
        intro hat
        rw [hat] at htr
        simp [optStrTruthy] at htr
      obtain ⟨e, he⟩ := Option.ne_none_iff_exists'.1 (hwf hacc)
      refine ⟨hacc, e, he, ?_⟩
      rw [he] at hexp
      simp only [decide_eq_true_eq] at hexp
      omega

/-- Witness for C1: a state with a far-future expiry is left untouched and is
valid for more than five minutes. -/
theorem ensure_valid_token_contract_witness :
    tokenValidFor ⟨some "tok", "r", some 10000⟩ 0 (5 * 60) :=
  (ensure_valid_token_contract ⟨some "tok", "r", some 10000⟩ 0 (.failure "x")
    (by decide) (fun a r e h => TokenEndpointResult.noConfusion h)).2.2.2
    ⟨some "tok", "r", some 10000⟩ rfl

/-- Counterexample to C1 as stated: a successful refresh whose `expires_in` is
only 10 seconds lets `ensure_valid_token` return without error while the held
credential expires within 10 seconds, not 5 minutes. -/
theorem ensure_valid_claim_counterexample :
    ensure_valid_token ⟨none, "r", none⟩ 0 (.success "a" "r2" 10) =
      (⟨some "a", "r2", some 10⟩, none) ∧
    ¬ tokenValidFor ⟨some "a", "r2", some 10⟩ 0 (5 * 60) := by
  refine ⟨rfl, ?_⟩
  rintro ⟨-, e, he, hlt⟩
  have : e = 10 := by simpa using he.symm
  subst this
  exact absurd hlt (by decide)

/-! ## Lemmas: the weekly-mileage dict -/

theorem lookupMiles_addMiles (m : List (String × ℚ)) (k : String) (v : ℚ) (k' : String) :
    lookupMiles (addMiles m k v) k' = lookupMiles m k' + if k = k' then v else 0 := by
  induction m with
  | nil =>
    by_cases h : k = k'
    · subst h; simp [addMiles, lookupMiles]
    · simp [addMiles, lookupMiles, h]
  | cons p rest ih =>
    obtain ⟨k₀, v₀⟩ := p
    by_cases h0 : k₀ = k
    · subst h0
      by_cases h1 : k₀ = k'
      · subst h1; simp [addMiles, lookupMiles]
      · simp [addMiles, lookupMiles, h1]
    · by_cases h1 : k₀ = k'
      · subst h1
        have hkk : ¬(k = k₀) := fun hc => h0 hc.symm
        simp [addMiles, lookupMiles, h0, hkk]
      · simp [addMiles, lookupMiles, h0, h1, ih]

theorem mem_keys_addMiles (m : List (String × ℚ)) (k : String) (v : ℚ) (k' : String) :
    k' ∈ (addMiles m k v).map Prod.fst ↔ k' ∈ m.map Prod.fst ∨ k' = k := by
  induction m with
  | nil => simp [addMiles]
  | cons p rest ih =>
    obtain ⟨k₀, v₀⟩ := p
    by_cases h0 : k₀ = k
    · subst h0
      simp [addMiles]
      tauto
    · simp [addMiles, h0, ih]
      tauto

theorem nodup_keys_addMiles (m : List (String × ℚ)) (k : String) (v : ℚ)
    (h : (m.map Prod.fst).Nodup) : ((addMiles m k v).map Prod.fst).Nodup := by
  induction m with
  | nil => simp [addMiles]
  | cons p rest ih =>
    obtain ⟨k₀, v₀⟩ := p
    rw [List.map_cons, List.nodup_cons] at h
    obtain ⟨hnotin, hrest⟩ := h
    by_cases h0 : k₀ = k
    · subst h0
      have hstep : addMiles ((k₀, v₀) :: rest) k₀ v = (k₀, v₀ + v) :: rest := by
        simp [addMiles]
      rw [hstep, List.map_cons, List.nodup_cons]
      exact ⟨hnotin, hrest⟩
    · simp only [addMiles, if_neg h0, List.map_cons, List.nodup_cons]
      refine ⟨?_, ih hrest⟩
      rw [mem_keys_addMiles]
      rintro (hmem | hmem)
      · exact hnotin hmem
      · exact h0 hmem

theorem lookupMiles_foldl (runs : List Activity) :
    ∀ (m : List (String × ℚ)) (k : String),
      lookupMiles (runs.foldl weeklyStep m) k =
        lookupMiles m k +
          ((runs.filter (fun r => weekKey r == k)).map
            (fun r => meters_to_miles r.distance)).sum := by
  induction runs with
  | nil => intro m k; simp
  | cons r rs ih =>
    intro m k
    rw [List.foldl_cons, ih (weeklyStep m r) k,
      show weeklyStep m r = addMiles m (weekKey r) (meters_to_miles r.distance) from rfl,
      lookupMiles_addMiles]
    by_cases h : weekKey r = k
    · simp only [List.filter_cons, beq_iff_eq, if_pos h, List.map_cons, List.sum_cons]
      ring
    · simp only [List.filter_cons, beq_iff_eq, if_neg h]
      ring

theorem mem_keys_foldl (runs : List Activity) :
    ∀ (m : List (String × ℚ)) (k : String),
      k ∈ ((runs.foldl weeklyStep m).map Prod.fst) ↔
        k ∈ m.map Prod.fst ∨ ∃ r ∈ runs, weekKey r = k := by
  induction runs with
  | nil => intro m k; simp
  | cons r rs ih =>
    intro m k
    rw [List.foldl_cons, ih (weeklyStep m r) k,
      show weeklyStep m r = addMiles m (weekKey r) (meters_to_miles r.distance) from rfl,
      mem_keys_addMiles]
    simp only [List.mem_cons]
    constructor
    · rintro ((hm | hk) | ⟨x, hx, hxk⟩)
      · exact Or.inl hm
      · exact Or.inr ⟨r, Or.inl rfl, hk.symm⟩
      · exact Or.inr ⟨x, Or.inr hx, hxk⟩
    · rintro (hm | ⟨x, hx | hx, hxk⟩)
      · exact Or.inl (Or.inl hm)
      · exact Or.inl (Or.inr (hx ▸ hxk.symm))
      · exact Or.inr ⟨x, hx, hxk⟩

theorem nodup_keys_foldl (runs : List Activity) :
    ∀ m : List (String × ℚ), (m.map Prod.fst).Nodup →
      (((runs.foldl weeklyStep m)).map Prod.fst).Nodup := by
  induction runs with
  | nil => intro m h; simpa using h
  | cons r rs ih =>
    intro m h
    rw [List.foldl_cons]
    exact ih _ (nodup_keys_addMiles m _ _ h)

theorem lookupMiles_weeklyGroups (runs : List Activity) (k : String) :
    lookupMiles (weeklyGroups runs) k =
      ((runs.filter (fun r => weekKey r == k)).map
        (fun r => meters_to_miles r.distance)).sum := by
  rw [weeklyGroups, lookupMiles_foldl]
  simp [lookupMiles]

theorem mem_keys_weeklyGroups (runs : List Activity) (k : String) :
    k ∈ (weeklyGroups runs).map Prod.fst ↔ ∃ r ∈ runs, weekKey r = k := by
  rw [weeklyGroups, mem_keys_foldl]
  simp

theorem nodup_keys_weeklyGroups (runs : List Activity) :
    ((weeklyGroups runs).map Prod.fst).Nodup :=
  nodup_keys_foldl runs [] (by simp)

theorem weeklyGroups_ne_nil {runs : List Activity} (h : runs ≠ []) :
    weeklyGroups runs ≠ [] := by
  obtain ⟨r, hr⟩ := List.exists_mem_of_ne_nil runs h
  intro hcon
  have hmem := (mem_keys_weeklyGroups runs (weekKey r)).2 ⟨r, hr, rfl⟩
  rw [hcon] at hmem
  simp at hmem

theorem length_weeklyGroups (runs : List Activity) :
    (weeklyGroups runs).length = distinctWeekKeys runs := by
  have hnd := nodup_keys_weeklyGroups runs
  have hmem : ∀ k, k ∈ (weeklyGroups runs).map Prod.fst ↔ k ∈ runs.map weekKey := by
    intro k
    rw [mem_keys_weeklyGroups, List.mem_map]
  calc (weeklyGroups runs).length
      = ((weeklyGroups runs).map Prod.fst).length := by rw [List.length_map]
    _ = ((weeklyGroups runs).map Prod.fst).toFinset.card :=
        (List.toFinset_card_of_nodup hnd).symm
    _ = (runs.map weekKey).toFinset.card := by
        congr 1
        ext k
        simp only [List.mem_toFinset]
        exact hmem k
    _ = (runs.map weekKey).dedup.length := List.card_toFinset _

/-! ## Claim C3: the weekly average divides by the weeks present -/

/-- C3: the average miles per week printed by the weekly report equals the
total miles divided by the number of distinct week keys actually present in
the data — not by the requested `weeks` parameter, which only appears in the
header text. -/
theorem weekly_average_divisor (activities : List Activity) (weeks : ℤ)
    (h : runFilter activities ≠ []) :
    get_weekly_mileage activities weeks =
      "Weekly mileage for the last " ++ intToStr weeks ++ " weeks:\n\n"
        ++ String.join ((sortedKeysDesc (weeklyGroups (runFilter activities))).map
            (weekLine (weeklyGroups (runFilter activities))))
        ++ "\nTotal: "
        ++ formatFixed 1 (((weeklyGroups (runFilter activities)).map Prod.snd).sum)
        ++ " miles\n"
        ++ "Average per week: "
        ++ formatFixed 1 ((((weeklyGroups (runFilter activities)).map Prod.snd).sum)
            / (distinctWeekKeys (runFilter activities) : ℚ))
        ++ " miles" := by
  have hne := weeklyGroups_ne_nil h
  simp only [get_weekly_mileage]
  rw [if_neg (by simpa [List.isEmpty_iff] using hne), length_weeklyGroups]

/-- Witness for C3 at two runs in distinct weeks. -/
theorem weekly_average_divisor_witness :
    get_weekly_mileage [sampleRunA, sampleRunC] 4 =
      "Weekly mileage for the last " ++ intToStr 4 ++ " weeks:\n\n"
        ++ String.join ((sortedKeysDesc (weeklyGroups (runFilter [sampleRunA, sampleRunC]))).map
            (weekLine (weeklyGroups (runFilter [sampleRunA, sampleRunC]))))
        ++ "\nTotal: "
        ++ formatFixed 1 (((weeklyGroups (runFilter [sampleRunA, sampleRunC])).map Prod.snd).sum)
        ++ " miles\n"
        ++ "Average per week: "
        ++ formatFixed 1 ((((weeklyGroups (runFilter [sampleRunA, sampleRunC])).map Prod.snd).sum)
            / (distinctWeekKeys (runFilter [sampleRunA, sampleRunC]) : ℚ))
        ++ " miles" :=
  weekly_average_divisor [sampleRunA, sampleRunC] 4 (by decide)

/-! ## Lemmas: grouping when all runs share one week -/

theorem weeklyFold_single (w : String) (runs : List Activity) :
    ∀ v : ℚ, (∀ r ∈ runs, weekKey r = w) →
      runs.foldl weeklyStep [(w, v)] =
        [(w, v + (runs.map (fun r => meters_to_miles r.distance)).sum)] := by
  induction runs with
  | nil => intro v _; simp
  | cons r rs ih =>
    intro v hall
    have hw : weekKey r = w := hall r (List.mem_cons_self r rs)
    rw [List.foldl_cons]
    have hstep : weeklyStep [(w, v)] r = [(w, v + meters_to_miles r.distance)] := by
      simp [weeklyStep, hw, addMiles]
    rw [hstep, ih _ (fun x hx => hall x (List.mem_cons_of_mem r hx))]
    simp [add_assoc]

theorem weeklyGroups_single (w : String) (runs : List Activity) (hne : runs ≠ [])
    (hall : ∀ r ∈ runs, weekKey r = w) :
    weeklyGroups runs =
      [(w, (runs.map (fun r => meters_to_miles r.distance)).sum)] := by
  cases runs with
  | nil => exact absurd rfl hne
  | cons r rs =>
    have hw : weekKey r = w := hall r (List.mem_cons_self r rs)
    rw [weeklyGroups, List.foldl_cons]
    have hstep : weeklyStep [] r = [(w, meters_to_miles r.distance)] := by
      simp [weeklyStep, hw, addMiles]
    rw [hstep, weeklyFold_single w rs _ (fun x hx => hall x (List.mem_cons_of_mem r hx))]
    simp

theorem epochWeekday_mondayEpochOf (r : Activity) : epochWeekday (mondayEpochOf r) = 0 := by
  rw [mondayEpochOf, epochWeekday, pyWeekday]
  have h1 : daysFromCivil (parseDate r.start_date_local) -
      Int.emod (daysFromCivil (parseDate r.start_date_local) + 3) 7 + 3 =
      (daysFromCivil (parseDate r.start_date_local) + 3) -
        Int.emod (daysFromCivil (parseDate r.start_date_local) + 3) 7 := by ring
  have key : ∀ a : ℤ, (a - a % 7) % 7 = 0 := by
    intro a
    rw [Int.sub_emod, Int.emod_emod_of_dvd _ dvd_rfl, sub_self, Int.zero_emod]
  rw [h1]
  exact key _

theorem string_join_singleton (s : String) : String.join [s] = s := rfl

/-! ## Claim C5: Monday-aligned weekly grouping -/

/-- C5: every run of type `"Run"` is keyed by the Monday of its week (its date
minus its weekday offset, a true Monday), and when all qualifying runs fall in
the same Monday-aligned week the grouping holds a single bucket with the sum of
their miles and the report has exactly one week line carrying that sum. -/
theorem weekly_single_week_grouping (activities : List Activity) (weeks : ℤ) (m₀ : ℤ)
    (hne : runFilter activities ≠ [])
    (hsame : ∀ r ∈ runFilter activities, mondayEpochOf r = m₀) :
    (∀ r ∈ runFilter activities, weekKey r = formatYMD (civilFromDays m₀)) ∧
    epochWeekday m₀ = 0 ∧
    weeklyGroups (runFilter activities) =
      [(formatYMD (civilFromDays m₀),
        ((runFilter activities).map (fun r => meters_to_miles r.distance)).sum)] ∧
    get_weekly_mileage activities weeks =
      "Weekly mileage for the last " ++ intToStr weeks ++ " weeks:\n\n"
        ++ ("Week of " ++ formatYMD (civilFromDays m₀) ++ ": "
            ++ formatFixed 1
              (((runFilter activities).map (fun r => meters_to_miles r.distance)).sum)
            ++ " miles\n")
        ++ "\nTotal: "
        ++ formatFixed 1
          (((runFilter activities).map (fun r => meters_to_miles r.distance)).sum)
        ++ " miles\n"
        ++ "Average per week: "
        ++ formatFixed 1
          (((runFilter activities).map (fun r => meters_to_miles r.distance)).sum)
        ++ " miles" := by
  obtain ⟨r₀, hr₀⟩ := List.exists_mem_of_ne_nil _ hne
  have hkey : ∀ r ∈ runFilter activities, weekKey r = formatYMD (civilFromDays m₀) := by
    intro r hr
    have hrfl : weekKey r = formatYMD (civilFromDays (mondayEpochOf r)) := rfl
    rw [hrfl, hsame r hr]
  have hwd : epochWeekday m₀ = 0 := by
    rw [← hsame r₀ hr₀]
    exact epochWeekday_mondayEpochOf r₀
  have hg := weeklyGroups_single _ _ hne hkey
  refine ⟨hkey, hwd, hg, ?_⟩
  have hsort : sortedKeysDesc
      [(formatYMD (civilFromDays m₀),
        ((runFilter activities).map (fun r => meters_to_miles r.distance)).sum)] =
      [formatYMD (civilFromDays m₀)] := by
    simp [sortedKeysDesc, List.insertionSort]
  have hlook : lookupMiles
      [(formatYMD (civilFromDays m₀),
        ((runFilter activities).map (fun r => meters_to_miles r.distance)).sum)]
      (formatYMD (civilFromDays m₀)) =
      ((runFilter activities).map (fun r => meters_to_miles r.distance)).sum := by
    simp [lookupMiles]
  simp only [get_weekly_mileage, hg]
  rw [if_neg (by simp)]
  rw [hsort]
  simp only [List.map_cons, List.map_nil, List.sum_cons, List.sum_nil, add_zero,
    List.length_cons, List.length_nil, string_join_singleton, weekLine, hlook,
    Nat.cast_one, div_one, Nat.cast_ofNat, Nat.zero_add]

/-- Witness for C5: two runs on Monday 2024-01-01 and Wednesday 2024-01-03 land
in the single bucket keyed by Monday 2024-01-01 (epoch day 19723). -/
theorem weekly_single_week_grouping_witness :
    weeklyGroups (runFilter [sampleRunA, sampleRunB]) =
      [(formatYMD (civilFromDays 19723),
        ((runFilter [sampleRunA, sampleRunB]).map
          (fun r => meters_to_miles r.distance)).sum)] :=
  (weekly_single_week_grouping [sampleRunA, sampleRunB] 4 19723
    (by decide) (by decide)).2.2.1

/-! ## Lemmas: the lexicographic string order -/

theorem lexLtB_irrefl : ∀ l : List Char, lexLtB l l = false := by
  intro l
  induction l with
  | nil => rfl
  | cons c cs ih => simp [lexLtB, ih]

theorem lexLtB_asymm : ∀ a b : List Char, lexLtB a b = true → lexLtB b a = false := by
  intro a
  induction a with
  | nil =>
    intro b hab
    cases b with
    | nil => cases hab
    | cons d ds => rfl
  | cons c cs ih =>
    intro b hab
    cases b with
    | nil => cases hab
    | cons d ds =>
      rw [lexLtB] at hab ⊢
      by_cases h1 : c.toNat < d.toNat
      · have h2 : ¬(d.toNat < c.toNat) := by omega
        simp [h1, h2]
      · by_cases h2 : d.toNat < c.toNat
        · simp [h1, h2] at hab
        · simp only [if_neg h1, if_neg h2] at hab ⊢
          exact ih ds hab

theorem lexLtB_trans : ∀ a b c : List Char,
    lexLtB a b = true → lexLtB b c = true → lexLtB a c = true := by
  intro a
  induction a with
  | nil =>
    intro b c hab hbc
    cases b with
    | nil => cases hab
    | cons d ds =>
      cases c with
      | nil => cases hbc
      | cons e es => rfl
  | cons x xs ih =>
    intro b c hab hbc
    cases b with
    | nil => cases hab
    | cons d ds =>
      cases c with
      | nil => cases hbc
      | cons e es =>
        rw [lexLtB] at hab hbc ⊢
        by_cases h1 : x.toNat < d.toNat
        · by_cases h2 : d.toNat < e.toNat
          · have : x.toNat < e.toNat := by omega
            simp [this]
          · by_cases h3 : e.toNat < d.toNat
            · simp [h2, h3] at hbc
            · have hde : d.toNat = e.toNat := by omega
              have : x.toNat < e.toNat := by omega
              simp [this]
        · by_cases h2 : d.toNat < x.toNat
          · simp [h1, h2] at hab
          · have hxd : x.toNat = d.toNat := by omega
            simp only [if_neg h1, if_neg h2] at hab
            by_cases h3 : d.toNat < e.toNat
            · have : x.toNat < e.toNat := by omega
              simp [this]
            · by_cases h4 : e.toNat < d.toNat
              · simp [h3, h4] at hbc
              · simp only [if_neg h3, if_neg h4] at hbc
                have h5 : ¬(x.toNat < e.toNat) := by omega
                have h6 : ¬(e.toNat < x.toNat) := by omega
                simp only [if_neg h5, if_neg h6]
                exact ih ds es hab hbc

theorem lexLtB_eq_of_not : ∀ a b : List Char,
    lexLtB a b = false → lexLtB b a = false → a = b := by
  intro a
  induction a with
  | nil =>
    intro b hab _
    cases b with
    | nil => rfl
    | cons d ds => cases hab
  | cons c cs ih =>
    intro b hab hba
    cases b with
    | nil => cases hba
    | cons d ds =>
      rw [lexLtB] at hab hba
      by_cases h1 : c.toNat < d.toNat
      · simp [h1] at hab
      · by_cases h2 : d.toNat < c.toNat
        · simp [h1, h2] at hba
        · simp only [if_neg h1, if_neg h2] at hab hba
          have hcd : c = d := by
            have hn : c.toNat = d.toNat := by omega
            exact Char.eq_of_val_eq (UInt32.eq_of_val_eq (Fin.ext hn))
          rw [hcd, ih ds hab hba]

theorem strLt_irrefl (a : String) : strLt a a = false := lexLtB_irrefl a.data

theorem strLt_asymm {a b : String} (h : strLt a b = true) : strLt b a = false :=
  lexLtB_asymm a.data b.data h

theorem strLt_trans {a b c : String} (hab : strLt a b = true) (hbc : strLt b c = true) :
    strLt a c = true :=
  lexLtB_trans a.data b.data c.data hab hbc

theorem strLt_eq_of_not {a b : String} (hab : strLt a b = false)
    (hba : strLt b a = false) : a = b := by
  have hdata : a.data = b.data := lexLtB_eq_of_not a.data b.data hab hba
  cases a
  cases b
  exact congrArg String.mk hdata

/-! ## Lemmas: the descending key sort -/

theorem sortedKeysDesc_perm (m : List (String × ℚ)) :
    (sortedKeysDesc m).Perm (m.map Prod.fst) :=
  List.perm_insertionSort _ _

theorem sortedKeysDesc_sorted (m : List (String × ℚ)) :
    List.Sorted (fun a b : String => strLt a b = false) (sortedKeysDesc m) := by
  haveI htot : IsTotal String (fun a b => strLt a b = false) := by
    constructor
    intro a b
    cases h : strLt a b with
    | false => exact Or.inl rfl
    | true => exact Or.inr (strLt_asymm h)
  haveI htrans : IsTrans String (fun a b => strLt a b = false) := by
    constructor
    intro a b c hab hbc
    cases hac : strLt a c with
    | false => rfl
    | true =>
      exfalso
      cases hba : strLt b a with
      | false =>
        have h : b = a := strLt_eq_of_not hba hab
        rw [← h] at hac
        rw [hac] at hbc
        cases hbc
      | true =>
        have hbc' : strLt b c = true := strLt_trans hba hac
        rw [hbc'] at hbc
        cases hbc
  exact List.sorted_insertionSort _ _

theorem sortedKeysDesc_pairwise (runs : List Activity) :
    List.Pairwise (fun a b => strLt b a = true)
      (sortedKeysDesc (weeklyGroups runs)) := by
  have hs := sortedKeysDesc_sorted (weeklyGroups runs)
  have hn : (sortedKeysDesc (weeklyGroups runs)).Nodup :=
    (sortedKeysDesc_perm _).nodup_iff.2 (nodup_keys_weeklyGroups runs)
  refine (List.Pairwise.and hs hn).imp ?_
  rintro a b ⟨hge, hne⟩
  cases hba : strLt b a with
  | false => exact absurd (strLt_eq_of_not hge hba) hne
  | true => rfl

/-! ## Claim C6: weekly report ordering -/

/-- C6: the weekly report is the header followed by one line per week key
present in the data, the keys in strictly descending order (most recent first);
week keys appear exactly when some run falls in that week, so empty weeks
produce no line; for two distinct present weeks the later one's line precedes
the earlier one's. -/
theorem weekly_report_ordering (activities : List Activity) (weeks : ℤ)
    (h : runFilter activities ≠ []) :
    get_weekly_mileage activities weeks =
      "Weekly mileage for the last " ++ intToStr weeks ++ " weeks:\n\n"
        ++ String.join ((sortedKeysDesc (weeklyGroups (runFilter activities))).map
            (weekLine (weeklyGroups (runFilter activities))))
        ++ "\nTotal: "
        ++ formatFixed 1 (((weeklyGroups (runFilter activities)).map Prod.snd).sum)
        ++ " miles\n"
        ++ "Average per week: "
        ++ formatFixed 1 ((((weeklyGroups (runFilter activities)).map Prod.snd).sum)
            / ((weeklyGroups (runFilter activities)).length : ℚ))
        ++ " miles" ∧
    List.Pairwise (fun a b => strLt b a = true)
      (sortedKeysDesc (weeklyGroups (runFilter activities))) ∧
    (∀ k, k ∈ sortedKeysDesc (weeklyGroups (runFilter activities)) ↔
      ∃ r ∈ runFilter activities, weekKey r = k) := by
  refine ⟨?_, sortedKeysDesc_pairwise _, ?_⟩
  · have hne := weeklyGroups_ne_nil h
    simp only [get_weekly_mileage]
    rw [if_neg (by simpa [List.isEmpty_iff] using hne)]
  · intro k
    rw [(sortedKeysDesc_perm _).mem_iff, mem_keys_weeklyGroups]

/-- Witness for C6: runs on 2024-01-01 and 2024-01-09 produce the key list
`["2024-01-08", "2024-01-01"]` — the later week first — and it is strictly
descending. -/
theorem weekly_report_ordering_witness :
    List.Pairwise (fun a b => strLt b a = true)
      (sortedKeysDesc (weeklyGroups (runFilter [sampleRunA, sampleRunC]))) ∧
    sortedKeysDesc (weeklyGroups (runFilter [sampleRunA, sampleRunC])) =
      ["2024-01-08", "2024-01-01"] :=
  ⟨(weekly_report_ordering [sampleRunA, sampleRunC] 4 (by decide)).2.1, by decide⟩

/-! ## Lemmas: pace list -/

theorem length_paceList (activities : List Activity) :
    (paceList activities).length = (paceRunFilter activities).length := by
  rw [paceList, List.length_map, paceSorted]
  exact (List.perm_insertionSort _ _).length_eq

theorem recentAvgSpec_eq (paces : List ℚ) :
    recentAvgSpec paces =
      (paces.drop (paces.length - 3)).sum / ((min 3 paces.length : ℕ) : ℚ) := by
  have hd : paces.length - min 3 paces.length = paces.length - 3 := by omega
  have hl : (paces.drop (paces.length - 3)).length = min 3 paces.length := by
    rw [List.length_drop]; omega
  rw [recentAvgSpec]
  simp only [hd, hl]

theorem earlyAvgSpec_eq (paces : List ℚ) :
    earlyAvgSpec paces =
      (paces.take 3).sum / ((min 3 paces.length : ℕ) : ℚ) := by
  have ht : paces.take (min 3 paces.length) = paces.take 3 := by
    rcases le_total 3 paces.length with h | h
    · rw [min_eq_left h]
    · rw [min_eq_right h, List.take_of_length_le (le_refl _),
        List.take_of_length_le h]
  have hlt : (paces.take 3).length = min 3 paces.length := List.length_take 3 paces
  rw [earlyAvgSpec]
  simp only [ht, hlt]

/-! ## Claim C2: the pace-trend classification -/

/-- C2: with at least two qualifying runs the report appends an average/trend
block whose label is `"stable"` when `|recent_avg - early_avg| < 10`, else
`"improving"` when `recent_avg < early_avg`, else `"declining"`, where
`recent_avg`/`early_avg` are the means of the last/first `min 3 n` pace
samples; with exactly one qualifying run only the per-run body is emitted, no
trend/average block. -/
theorem analyze_pace_trends_trend_spec (activities : List Activity) (days : ℤ) :
    (2 ≤ (paceList activities).length →
      analyze_pace_trends activities days =
        paceBody activities days
          ++ "\nAverage pace: "
          ++ minSecStr ((paceList activities).sum / ((paceList activities).length : ℚ))
          ++ "/mile\n" ++ "Trend: "
          ++ trendSpec (recentAvgSpec (paceList activities))
              (earlyAvgSpec (paceList activities))) ∧
    ((paceList activities).length = 1 →
      analyze_pace_trends activities days = paceBody activities days) := by
  have hlen := length_paceList activities
  constructor
  · intro h2
    have hne : (paceRunFilter activities).isEmpty = false := by
      cases hfil : paceRunFilter activities with
      | nil => rw [hfil] at hlen; simp only [List.length_nil] at hlen; omega
      | cons a l => rfl
    rw [analyze_pace_trends, hne]
    simp only [Bool.false_eq_true, if_false]
    rw [if_pos h2, recentAvgSpec_eq, earlyAvgSpec_eq]
    rfl
  · intro h1
    have hne : (paceRunFilter activities).isEmpty = false := by
      cases hfil : paceRunFilter activities with
      | nil => rw [hfil] at hlen; simp only [List.length_nil] at hlen; omega
      | cons a l => rfl
    have hnot2 : ¬(2 ≤ (paceList activities).length) := by omega
    rw [analyze_pace_trends, hne]
    simp only [Bool.false_eq_true, if_false]
    rw [if_neg hnot2]

/-- Witness for C2: two identical-pace runs give the trend block (and
`trendSpec` evaluates to `"stable"` there), one run gives the bare body. -/
theorem analyze_pace_trends_trend_spec_witness :
    analyze_pace_trends [sampleRunA, sampleRunB] 30 =
      paceBody [sampleRunA, sampleRunB] 30
        ++ "\nAverage pace: "
        ++ minSecStr ((paceList [sampleRunA, sampleRunB]).sum
            / ((paceList [sampleRunA, sampleRunB]).length : ℚ))
        ++ "/mile\n" ++ "Trend: "
        ++ trendSpec (recentAvgSpec (paceList [sampleRunA, sampleRunB]))
            (earlyAvgSpec (paceList [sampleRunA, sampleRunB])) ∧
    trendSpec (recentAvgSpec (paceList [sampleRunA, sampleRunB]))
        (earlyAvgSpec (paceList [sampleRunA, sampleRunB])) = "stable" ∧
    analyze_pace_trends [sampleRunA] 30 = paceBody [sampleRunA] 30 :=
  ⟨(analyze_pace_trends_trend_spec [sampleRunA, sampleRunB] 30).1 (by decide),
   by decide,
   (analyze_pace_trends_trend_spec [sampleRunA] 30).2 (by decide)⟩
